import Mathlib

/-!
Shallow embedding of the vnpy_riskmanager pre-trade risk rules.

Conventions of the embedding:
* Python floats (prices, volumes, contract metadata) are modelled as exact
  rationals `ℚ`; the tolerance `1e-6` is the rational `1/1000000`.
* Python ints (`cdef int` counters and limits) are modelled as `ℤ`; Python
  semantics (arbitrary precision, no wrap) is the intended behaviour.
* `self.write_log`/`put_event` side effects are modelled by an explicit
  deny-reason value and an `events` counter in each rule's state.
* A stateful `cpdef` method on a rule class becomes a function
  `State → args → State × result`; a method that never assigns a field
  returns the state unchanged.
* The engine's contract lookup `get_contract` is passed in as a function
  `String → Option ContractData` (None ↦ `none`).
-/

namespace VnpyRisk

/-- Order types of `vnpy.trader.constant.OrderType`. -/
inductive OrderType where
  | LIMIT
  | MARKET
  | STOP
  | FAK
  | FOK
  | RFQ
deriving DecidableEq

/-- The `.value` string of each `OrderType` member. -/
def OrderType.value : OrderType → String
  | .LIMIT => "限价"
  | .MARKET => "市价"
  | .STOP => "STOP"
  | .FAK => "FAK"
  | .FOK => "FOK"
  | .RFQ => "询价"

/-- Directions of `vnpy.trader.constant.Direction`. -/
inductive Direction where
  | LONG
  | SHORT
  | NET
deriving DecidableEq

/-- The `.value` string of each `Direction` member. -/
def Direction.value : Direction → String
  | .LONG => "多"
  | .SHORT => "空"
  | .NET => "净"

/-- Offsets of `vnpy.trader.constant.Offset`. -/
inductive Offset where
  | NONE
  | OPEN
  | CLOSE
  | CLOSETODAY
  | CLOSEYESTERDAY
deriving DecidableEq

/-- The `.value` string of each `Offset` member. -/
def Offset.value : Offset → String
  | .NONE => ""
  | .OPEN => "开"
  | .CLOSE => "平"
  | .CLOSETODAY => "平今"
  | .CLOSEYESTERDAY => "平昨"

/-- Order status values of `vnpy.trader.constant.Status`. -/
inductive Status where
  | SUBMITTING
  | NOTTRADED
  | PARTTRADED
  | ALLTRADED
  | CANCELLED
  | REJECTED
deriving DecidableEq

/-- `vnpy.trader.object.OrderRequest`: the six fields the risk rules read. -/
structure OrderRequest where
  vt_symbol : String
  type : OrderType
  direction : Direction
  offset : Offset
  volume : ℚ
  price : ℚ
deriving DecidableEq

/-- `vnpy.trader.object.ContractData`: the fields the risk rules read. -/
structure ContractData where
  pricetick : ℚ
  min_volume : ℚ
  max_volume : ℚ
  size : ℚ
deriving DecidableEq

/-- `vnpy.trader.object.OrderData`: the fields the risk rules read. -/
structure OrderData where
  vt_orderid : String
  vt_symbol : String
  status : Status
deriving DecidableEq

/-- `OrderData.is_active`: the status is one of the three non-terminal ones. -/
def OrderData.is_active (o : OrderData) : Bool :=
  match o.status with
  | .SUBMITTING => true
  | .NOTTRADED => true
  | .PARTTRADED => true
  | _ => false

/-- `vnpy.trader.object.TradeData`: the fields the risk rules read. -/
structure TradeData where
  vt_tradeid : String
  vt_symbol : String
deriving DecidableEq

/-- Python's `%` on a positive divisor: `a - b * ⌊a / b⌋` (result in `[0, b)`). -/
def pymod (a b : ℚ) : ℚ := a - b * ⌊a / b⌋

/-- The float-precision tolerance `1e-6` used by the validity rule. -/
def tol : ℚ := 1 / 1000000

/-- `OrderValidityRuleCy.check_allowed` (src/unnamed/part_001): contract
existence, tick-multiple (with dual-sided `1e-6` tolerance), maximum-volume
(only when `max_volume` is truthy, i.e. nonzero) and minimum-volume checks,
in that order. Stateless: only the boolean decision is returned. -/
def OrderValidityRuleCy.check_allowed
    (get_contract : String → Option ContractData) (req : OrderRequest) : Bool :=
  match get_contract req.vt_symbol with
  | none => false
  | some contract =>
    if contract.pricetick > 0 ∧
        |pymod req.price contract.pricetick| > tol ∧
        |pymod req.price contract.pricetick - contract.pricetick| > tol then
      false
    else if contract.max_volume ≠ 0 ∧ req.volume > contract.max_volume then
      false
    else if req.volume < contract.min_volume then
      false
    else
      true

/-- Parameter state of `OrderSizeRuleCy`. -/
structure OrderSizeState where
  order_volume_limit : ℤ
  order_value_limit : ℚ
deriving DecidableEq

/-- `OrderSizeRuleCy.on_init`: default limits. -/
def OrderSizeRuleCy.on_init : OrderSizeState :=
  { order_volume_limit := 500, order_value_limit := 1000000 }

/-- `OrderSizeRuleCy.check_allowed`: volume check first; the notional-value
check only runs when the contract resolves and `req.price` is truthy
(nonzero). Stateless. -/
def OrderSizeRuleCy.check_allowed (s : OrderSizeState)
    (get_contract : String → Option ContractData) (req : OrderRequest) : Bool :=
  if req.volume > (s.order_volume_limit : ℚ) then
    false
  else
    match get_contract req.vt_symbol with
    | some contract =>
      if req.price ≠ 0 ∧ req.volume * req.price * contract.size > s.order_value_limit then
        false
      else
        true
    | none => true

/-- The decimal digit character for `d` (`'0'` for 0, …, `'9'` for 9). -/
def digitChar (d : ℕ) : Char := Char.ofNat (48 + d)

/-- Decimal rendering of a natural number as characters. -/
def natChars (n : ℕ) : List Char :=
  if n = 0 then ['0'] else (Nat.digits 10 n).reverse.map digitChar

/-- Decimal rendering of an integer (leading `'-'` when negative). -/
def intChars (i : ℤ) : List Char :=
  if i < 0 then '-' :: natChars i.natAbs else natChars i.natAbs

/-- Models Python's `str()` of the float `volume`/`price` fields: an
injective decimal rendering of the exact rational value (numerator and
denominator of the reduced fraction). Like CPython's float `repr`, it is
injective on values and never produces `'|'` or `'@'`. -/
def ratStr (q : ℚ) : String := ⟨intChars q.num ++ '/' :: natChars q.den⟩

/-- `DuplicateOrderRuleCy.format_req`: the fingerprint
`f"{vt_symbol}|{type.value}|{direction.value}|{offset.value}|{volume}@{price}"`. -/
def DuplicateOrderRuleCy.format_req (req : OrderRequest) : String :=
  req.vt_symbol ++ "|" ++ req.type.value ++ "|" ++ req.direction.value ++ "|" ++
    req.offset.value ++ "|" ++ ratStr req.volume ++ "@" ++ ratStr req.price

/-- State of `DuplicateOrderRuleCy`: the limit parameter, the
`defaultdict(int)` of per-fingerprint counts, and a `put_event` counter. -/
structure DupState where
  duplicate_order_limit : ℤ
  duplicate_order_count : String → ℤ
  events : ℕ

/-- `DuplicateOrderRuleCy.on_init`: limit defaults to 10, all counts 0. -/
def DuplicateOrderRuleCy.on_init : DupState :=
  { duplicate_order_limit := 10, duplicate_order_count := fun _ => 0, events := 0 }

/-- `DuplicateOrderRuleCy.check_allowed`: increments the fingerprint's count,
emits an update, then denies iff the post-increment count has reached the
limit. -/
def DuplicateOrderRuleCy.check_allowed (s : DupState) (req : OrderRequest) :
    DupState × Bool :=
  let req_str := DuplicateOrderRuleCy.format_req req
  let count := fun k =>
    if k = req_str then s.duplicate_order_count k + 1 else s.duplicate_order_count k
  let s' : DupState :=
    { s with duplicate_order_count := count, events := s.events + 1 }
  (s', if count req_str ≥ s.duplicate_order_limit then false else true)

/-- The state after `n` calls of `DuplicateOrderRuleCy.check_allowed` with
the same request, starting from the freshly initialised rule. -/
def DuplicateOrderRuleCy.run (req : OrderRequest) : ℕ → DupState
  | 0 => DuplicateOrderRuleCy.on_init
  | n + 1 => (DuplicateOrderRuleCy.check_allowed (DuplicateOrderRuleCy.run req n) req).1

/-- State of `DailyLimitRuleCy`: six limit parameters, three id sets used
for de-duplication, three global counters, three per-symbol `defaultdict`
counters, and a `put_event` counter. -/
structure DailyState where
  total_order_limit : ℤ
  total_cancel_limit : ℤ
  total_trade_limit : ℤ
  contract_order_limit : ℤ
  contract_cancel_limit : ℤ
  contract_trade_limit : ℤ
  all_orderids : Finset String
  cancel_orderids : Finset String
  all_tradeids : Finset String
  total_order_count : ℤ
  total_cancel_count : ℤ
  total_trade_count : ℤ
  contract_order_count : String → ℤ
  contract_cancel_count : String → ℤ
  contract_trade_count : String → ℤ
  events : ℕ

/-- Increment of a `defaultdict(int)` entry. -/
def bump (f : String → ℤ) (k : String) : String → ℤ :=
  fun x => if x = k then f x + 1 else f x

/-- `DailyLimitRuleCy.on_init`: default limits, empty id sets, zero counts. -/
def DailyLimitRuleCy.on_init : DailyState where
  total_order_limit := 20000
  total_cancel_limit := 10000
  total_trade_limit := 10000
  contract_order_limit := 2000
  contract_cancel_limit := 1000
  contract_trade_limit := 1000
  all_orderids := ∅
  cancel_orderids := ∅
  all_tradeids := ∅
  total_order_count := 0
  total_cancel_count := 0
  total_trade_count := 0
  contract_order_count := fun _ => 0
  contract_cancel_count := fun _ => 0
  contract_trade_count := fun _ => 0
  events := 0

/-- Which of the six `write_log` branches of
`DailyLimitRuleCy.check_allowed` produced the denial. -/
inductive DailyReason where
  | contractOrder
  | contractCancel
  | contractTrade
  | totalOrder
  | totalCancel
  | totalTrade
deriving DecidableEq

/-- `DailyLimitRuleCy.check_allowed`: reads the counters against the six
limits in source order (per-symbol order/cancel/trade, then global
order/cancel/trade), returning at the first limit reached. It assigns no
field, so the state component of the result is the input state. -/
def DailyLimitRuleCy.check_allowed (s : DailyState) (req : OrderRequest) :
    DailyState × Bool × Option DailyReason :=
  if s.contract_order_count req.vt_symbol ≥ s.contract_order_limit then
    (s, false, some .contractOrder)
  else if s.contract_cancel_count req.vt_symbol ≥ s.contract_cancel_limit then
    (s, false, some .contractCancel)
  else if s.contract_trade_count req.vt_symbol ≥ s.contract_trade_limit then
    (s, false, some .contractTrade)
  else if s.total_order_count ≥ s.total_order_limit then
    (s, false, some .totalOrder)
  else if s.total_cancel_count ≥ s.total_cancel_limit then
    (s, false, some .totalCancel)
  else if s.total_trade_count ≥ s.total_trade_limit then
    (s, false, some .totalTrade)
  else
    (s, true, none)

/-- `DailyLimitRuleCy.on_order`: a newly seen order id is recorded and
counted as an order; otherwise a CANCELLED order whose id is not yet in
`cancel_orderids` is recorded and counted as a cancel; otherwise no-op. -/
def DailyLimitRuleCy.on_order (s : DailyState) (order : OrderData) : DailyState :=
  if order.vt_orderid ∉ s.all_orderids then
    { s with
      all_orderids := insert order.vt_orderid s.all_orderids
      total_order_count := s.total_order_count + 1
      contract_order_count := bump s.contract_order_count order.vt_symbol
      events := s.events + 1 }
  else if order.status = Status.CANCELLED ∧ order.vt_orderid ∉ s.cancel_orderids then
    { s with
      cancel_orderids := insert order.vt_orderid s.cancel_orderids
      total_cancel_count := s.total_cancel_count + 1
      contract_cancel_count := bump s.contract_cancel_count order.vt_symbol
      events := s.events + 1 }
  else
    s

/-- `DailyLimitRuleCy.on_trade`: a newly seen trade id is recorded and
counted; a repeated id is a no-op. -/
def DailyLimitRuleCy.on_trade (s : DailyState) (trade : TradeData) : DailyState :=
  if trade.vt_tradeid ∈ s.all_tradeids then
    s
  else
    { s with
      all_tradeids := insert trade.vt_tradeid s.all_tradeids
      total_trade_count := s.total_trade_count + 1
      contract_trade_count := bump s.contract_trade_count trade.vt_symbol
      events := s.events + 1 }

/-- `on_timer` is not overridden by `DailyLimitRuleCy`: the inherited
`RuleTemplate.on_timer` is a no-op. -/
def DailyLimitRuleCy.on_timer (s : DailyState) : DailyState := s

/-- `RuleTemplate.update_setting` specialised to `DailyLimitRuleCy`: its
declared `parameters` are exactly the six limits, so only those fields can
be assigned; the `setting` mapping yields `none` for absent keys. -/
def DailyLimitRuleCy.update_setting (s : DailyState) (setting : String → Option ℤ) :
    DailyState :=
  { s with
    total_order_limit := (setting "total_order_limit").getD s.total_order_limit
    total_cancel_limit := (setting "total_cancel_limit").getD s.total_cancel_limit
    total_trade_limit := (setting "total_trade_limit").getD s.total_trade_limit
    contract_order_limit := (setting "contract_order_limit").getD s.contract_order_limit
    contract_cancel_limit := (setting "contract_cancel_limit").getD s.contract_cancel_limit
    contract_trade_limit := (setting "contract_trade_limit").getD s.contract_trade_limit }

/-- One engine-visible call on a `DailyLimitRuleCy` instance. -/
inductive DailyCall where
  | order : OrderData → DailyCall
  | trade : TradeData → DailyCall
  | timer : DailyCall
  | check : OrderRequest → DailyCall
  | setting : (String → Option ℤ) → DailyCall

/-- Effect of one call on the rule state. -/
def DailyLimitRuleCy.step (s : DailyState) : DailyCall → DailyState
  | .order o => DailyLimitRuleCy.on_order s o
  | .trade t => DailyLimitRuleCy.on_trade s t
  | .timer => DailyLimitRuleCy.on_timer s
  | .check req => (DailyLimitRuleCy.check_allowed s req).1
  | .setting f => DailyLimitRuleCy.update_setting s f

/-- The rule state after initialisation followed by any call sequence. -/
def DailyLimitRuleCy.run (l : List DailyCall) : DailyState :=
  l.foldl DailyLimitRuleCy.step DailyLimitRuleCy.on_init

/-- Delivery of a sequence of order events only. -/
def DailyLimitRuleCy.runOrders (s : DailyState) (l : List OrderData) : DailyState :=
  l.foldl DailyLimitRuleCy.on_order s

/-- The de-duplication invariant of `DailyLimitRuleCy`: each global counter
is the size of its id set, and only ids counted as orders are counted as
cancels. -/
def DailyInvariant (s : DailyState) : Prop :=
  s.total_order_count = s.all_orderids.card ∧
  s.total_cancel_count = s.cancel_orderids.card ∧
  s.total_trade_count = s.all_tradeids.card ∧
  s.cancel_orderids ⊆ s.all_orderids

/-- Key list of a Python-dict model (`dict` keyed by `vt_orderid`). -/
def dictKeys (m : List (String × OrderData)) : List String := m.map Prod.fst

/-- `d[k] = v` on a Python dict: overwrite the entry if the key is present
(keys stay in place), otherwise append the new entry. -/
def dictInsert (k : String) (v : OrderData) :
    List (String × OrderData) → List (String × OrderData)
  | [] => [(k, v)]
  | p :: t => if p.1 = k then (k, v) :: t else p :: dictInsert k v t

/-- `d.pop(k)` on a Python dict: remove the (unique) entry with key `k`. -/
def eraseKey (k : String) : List (String × OrderData) → List (String × OrderData)
  | [] => []
  | p :: t => if p.1 = k then t else p :: eraseKey k t

/-- `k in d` on a Python dict. -/
def hasKey (k : String) (m : List (String × OrderData)) : Bool :=
  decide (k ∈ dictKeys m)

/-- State of `ActiveOrderRuleCy`: the limit parameter, the derived count,
the dict of currently active orders, and a `put_event` counter. -/
structure ActiveState where
  active_order_limit : ℤ
  active_order_count : ℤ
  active_orders : List (String × OrderData)
  events : ℕ

/-- `ActiveOrderRuleCy.on_init`: limit 50, empty dict, zero count. -/
def ActiveOrderRuleCy.on_init : ActiveState :=
  { active_order_limit := 50, active_order_count := 0, active_orders := [], events := 0 }

/-- `ActiveOrderRuleCy.check_allowed`: deny iff the count reached the limit.
Stateless. -/
def ActiveOrderRuleCy.check_allowed (s : ActiveState) : Bool :=
  if s.active_order_count ≥ s.active_order_limit then false else true

/-- `ActiveOrderRuleCy.on_order`: store an active order under its id, drop
an inactive one if present, recompute the count as the dict's size, and
emit an update unconditionally. -/
def ActiveOrderRuleCy.on_order (s : ActiveState) (o : OrderData) : ActiveState :=
  let m :=
    if o.is_active then dictInsert o.vt_orderid o s.active_orders
    else if hasKey o.vt_orderid s.active_orders then eraseKey o.vt_orderid s.active_orders
    else s.active_orders
  { s with
    active_orders := m
    active_order_count := (m.length : ℤ)
    events := s.events + 1 }

/-- Generic model of a `RuleTemplate` instance for the reflective
`update_setting`/`get_data` machinery: the declared parameter/variable
descriptor mappings (`vars` is the field the source calls `variables`, a
reserved word here) and the instance attributes. Attributes form a partial
map since `getattr(self, name, None)` can miss; `α` is the type of
attribute values (`setattr` stores them untyped and unvalidated). -/
structure RuleTemplate (α : Type) where
  name : String
  class_name : String
  parameters : List (String × String)
  vars : List (String × String)
  attrs : String → Option α

/-- `setattr(self, k, v)`. -/
def setAttr {α : Type} (r : RuleTemplate α) (k : String) (v : α) : RuleTemplate α :=
  { r with attrs := fun x => if x = k then some v else r.attrs x }

/-- One step of the `update_setting` loop body: assign the attribute when
the declared key is present in the incoming mapping. -/
def updateStep {α : Type} (rule_setting : String → Option α)
    (acc : RuleTemplate α) (p : String × String) : RuleTemplate α :=
  match rule_setting p.1 with
  | some v => setAttr acc p.1 v
  | none => acc

/-- `RuleTemplate.update_setting`: for every key of the declared
`parameters` mapping that is present in `rule_setting`, set the instance
attribute; all other keys of `rule_setting` are ignored silently. -/
def RuleTemplate.update_setting {α : Type} (r : RuleTemplate α)
    (rule_setting : String → Option α) : RuleTemplate α :=
  r.parameters.foldl (updateStep rule_setting) r

/-- The record returned by `RuleTemplate.get_data`. -/
structure RuleData (α : Type) where
  name : String
  class_name : String
  parameters : List (String × Option α)
  vars : List (String × Option α)

/-- `RuleTemplate.get_data`: reflective snapshot reading every declared
parameter and variable attribute (`None` when the attribute is absent). -/
def RuleTemplate.get_data {α : Type} (r : RuleTemplate α) : RuleData α :=
  { name := r.name
    class_name := r.class_name
    parameters := r.parameters.map (fun p => (p.1, r.attrs p.1))
    vars := r.vars.map (fun p => (p.1, r.attrs p.1)) }

end VnpyRisk

namespace VnpyRisk

/-- C4: `DailyLimitRule.check_allowed` does not mutate the state, allows
exactly when all six counters are strictly below their limits, and denies
with the first limit reached in the order: per-symbol order, per-symbol
cancel, per-symbol trade, global order, global cancel, global trade. -/
theorem dailyLimit_check_allowed_spec (s : DailyState) (req : OrderRequest) :
    (DailyLimitRuleCy.check_allowed s req).1 = s ∧
    ((DailyLimitRuleCy.check_allowed s req).2.1 = true ↔
      (s.contract_order_count req.vt_symbol < s.contract_order_limit ∧
        s.contract_cancel_count req.vt_symbol < s.contract_cancel_limit ∧
        s.contract_trade_count req.vt_symbol < s.contract_trade_limit ∧
        s.total_order_count < s.total_order_limit ∧
        s.total_cancel_count < s.total_cancel_limit ∧
        s.total_trade_count < s.total_trade_limit)) ∧
    ((DailyLimitRuleCy.check_allowed s req).2.2 = some DailyReason.contractOrder ↔
      s.contract_order_count req.vt_symbol ≥ s.contract_order_limit) ∧
    ((DailyLimitRuleCy.check_allowed s req).2.2 = some DailyReason.contractCancel ↔
      (s.contract_order_count req.vt_symbol < s.contract_order_limit ∧
        s.contract_cancel_count req.vt_symbol ≥ s.contract_cancel_limit)) ∧
    ((DailyLimitRuleCy.check_allowed s req).2.2 = some DailyReason.contractTrade ↔
      (s.contract_order_count req.vt_symbol < s.contract_order_limit ∧
        s.contract_cancel_count req.vt_symbol < s.contract_cancel_limit ∧
        s.contract_trade_count req.vt_symbol ≥ s.contract_trade_limit)) ∧
    ((DailyLimitRuleCy.check_allowed s req).2.2 = some DailyReason.totalOrder ↔
      (s.contract_order_count req.vt_symbol < s.contract_order_limit ∧
        s.contract_cancel_count req.vt_symbol < s.contract_cancel_limit ∧
        s.contract_trade_count req.vt_symbol < s.contract_trade_limit ∧
        s.total_order_count ≥ s.total_order_limit)) ∧
    ((DailyLimitRuleCy.check_allowed s req).2.2 = some DailyReason.totalCancel ↔
      (s.contract_order_count req.vt_symbol < s.contract_order_limit ∧
        s.contract_cancel_count req.vt_symbol < s.contract_cancel_limit ∧
        s.contract_trade_count req.vt_symbol < s.contract_trade_limit ∧
        s.total_order_count < s.total_order_limit ∧
        s.total_cancel_count ≥ s.total_cancel_limit)) ∧
    ((DailyLimitRuleCy.check_allowed s req).2.2 = some DailyReason.totalTrade ↔
      (s.contract_order_count req.vt_symbol < s.contract_order_limit ∧
        s.contract_cancel_count req.vt_symbol < s.contract_cancel_limit ∧
        s.contract_trade_count req.vt_symbol < s.contract_trade_limit ∧
        s.total_order_count < s.total_order_limit ∧
        s.total_cancel_count < s.total_cancel_limit ∧
        s.total_trade_count ≥ s.total_trade_limit)) ∧
    ((DailyLimitRuleCy.check_allowed s req).2.2 = none ↔
      (s.contract_order_count req.vt_symbol < s.contract_order_limit ∧
        s.contract_cancel_count req.vt_symbol < s.contract_cancel_limit ∧
        s.contract_trade_count req.vt_symbol < s.contract_trade_limit ∧
        s.total_order_count < s.total_order_limit ∧
        s.total_cancel_count < s.total_cancel_limit ∧
        s.total_trade_count < s.total_trade_limit)) := by
  simp only [DailyLimitRuleCy.check_allowed]
  split_ifs with h1 h2 h3 h4 h5 h6 <;>
    refine ⟨rfl, ?_, ?_, ?_, ?_, ?_, ?_, ?_, ?_⟩ <;>
    simp <;> omega

/-- Helper: the order id of a delivered order event is afterwards always in
`all_orderids`. -/
theorem daily_on_order_mem (s : DailyState) (o : OrderData) :
    o.vt_orderid ∈ (DailyLimitRuleCy.on_order s o).all_orderids := by
  unfold DailyLimitRuleCy.on_order
  by_cases h1 : o.vt_orderid ∉ s.all_orderids
  · rw [if_pos h1]
    exact Finset.mem_insert_self _ _
  · rw [if_neg h1]
    by_cases h2 : o.status = Status.CANCELLED ∧ o.vt_orderid ∉ s.cancel_orderids
    · rw [if_pos h2]
      exact not_not.mp h1
    · rw [if_neg h2]
      exact not_not.mp h1

/-- Helper: an order event whose id is already recorded never changes the
order counters. -/
theorem daily_on_order_seen_order_counts (s : DailyState) (o : OrderData)
    (h : o.vt_orderid ∈ s.all_orderids) :
    (DailyLimitRuleCy.on_order s o).total_order_count = s.total_order_count ∧
    (DailyLimitRuleCy.on_order s o).contract_order_count = s.contract_order_count := by
  unfold DailyLimitRuleCy.on_order
  rw [if_neg (not_not.mpr h)]
  by_cases h2 : o.status = Status.CANCELLED ∧ o.vt_orderid ∉ s.cancel_orderids
  · rw [if_pos h2]
    exact ⟨rfl, rfl⟩
  · rw [if_neg h2]
    exact ⟨rfl, rfl⟩

/-- Helper: how one order event can change the order-count fields. -/
theorem daily_on_order_order_fields (s : DailyState) (o : OrderData) :
    (o.vt_orderid ∉ s.all_orderids ∧
      (DailyLimitRuleCy.on_order s o).total_order_count = s.total_order_count + 1 ∧
      (DailyLimitRuleCy.on_order s o).all_orderids = insert o.vt_orderid s.all_orderids) ∨
    ((DailyLimitRuleCy.on_order s o).total_order_count = s.total_order_count ∧
      (DailyLimitRuleCy.on_order s o).all_orderids = s.all_orderids) := by
  unfold DailyLimitRuleCy.on_order
  by_cases h1 : o.vt_orderid ∉ s.all_orderids
  · rw [if_pos h1]
    exact Or.inl ⟨h1, rfl, rfl⟩
  · rw [if_neg h1]
    by_cases h2 : o.status = Status.CANCELLED ∧ o.vt_orderid ∉ s.cancel_orderids
    · rw [if_pos h2]
      exact Or.inr ⟨rfl, rfl⟩
    · rw [if_neg h2]
      exact Or.inr ⟨rfl, rfl⟩

/-- Helper: how one order event can change the cancel-count fields. -/
theorem daily_on_order_cancel_fields (s : DailyState) (o : OrderData) :
    ((DailyLimitRuleCy.on_order s o).total_cancel_count = s.total_cancel_count ∧
      (DailyLimitRuleCy.on_order s o).cancel_orderids = s.cancel_orderids) ∨
    (o.vt_orderid ∉ s.cancel_orderids ∧
      (DailyLimitRuleCy.on_order s o).total_cancel_count = s.total_cancel_count + 1 ∧
      (DailyLimitRuleCy.on_order s o).cancel_orderids = insert o.vt_orderid s.cancel_orderids) := by
  unfold DailyLimitRuleCy.on_order
  by_cases h1 : o.vt_orderid ∉ s.all_orderids
  · rw [if_pos h1]
    exact Or.inl ⟨rfl, rfl⟩
  · rw [if_neg h1]
    by_cases h2 : o.status = Status.CANCELLED ∧ o.vt_orderid ∉ s.cancel_orderids
    · rw [if_pos h2]
      exact Or.inr ⟨h2.2, rfl, rfl⟩
    · rw [if_neg h2]
      exact Or.inl ⟨rfl, rfl⟩

/-- Helper: inserting a fresh element outside `S` into `X` grows `X \ S` by
at least the element removed from the other side. -/
theorem card_sdiff_insert_le (a : String) (X S : Finset String) (ha : a ∉ S) :
    1 + ((X \ insert a S).card : ℤ) ≤ ((insert a X \ S).card : ℤ) := by
  have h1 : X \ insert a S = (X \ S).erase a := Finset.sdiff_insert X S a
  have h2 : insert a X \ S = insert a (X \ S) := by
    ext x
    simp only [Finset.mem_insert, Finset.mem_sdiff]
    constructor
    · rintro ⟨hx | hx, hxs⟩
      · exact Or.inl hx
      · exact Or.inr ⟨hx, hxs⟩
    · rintro (hx | ⟨hx, hxs⟩)
      · exact ⟨Or.inl hx, hx ▸ ha⟩
      · exact ⟨Or.inr hx, hxs⟩
  rw [h1, h2]
  have h3 : ((X \ S).erase a).card + 1 ≤ (insert a (X \ S)).card := by
    have hsub : insert a ((X \ S).erase a) ⊆ insert a (X \ S) :=
      Finset.insert_subset_insert a (Finset.erase_subset a _)
    have hcard : (insert a ((X \ S).erase a)).card = ((X \ S).erase a).card + 1 :=
      Finset.card_insert_of_not_mem (Finset.not_mem_erase a _)
    calc ((X \ S).erase a).card + 1 = (insert a ((X \ S).erase a)).card := hcard.symm
      _ ≤ (insert a (X \ S)).card := Finset.card_le_card hsub
  omega

/-- Helper: enlarging `X` can only grow `X \ S`. -/
theorem card_sdiff_le_insert (a : String) (X S : Finset String) :
    ((X \ S).card : ℤ) ≤ ((insert a X \ S).card : ℤ) := by
  have h := Finset.card_le_card
    (Finset.sdiff_subset_sdiff (Finset.subset_insert a X) (le_refl S))
  exact_mod_cast h

/-- Helper: over any order-event sequence, the global order counter grows by
at most the number of distinct not-yet-recorded order ids in the sequence. -/
theorem daily_runOrders_order_bound (l : List OrderData) :
    ∀ s : DailyState, (DailyLimitRuleCy.runOrders s l).total_order_count ≤
      s.total_order_count +
        (((l.map OrderData.vt_orderid).toFinset \ s.all_orderids).card : ℤ) := by
  induction l with
  | nil => intro s; simp [DailyLimitRuleCy.runOrders]
  | cons o t ih =>
    intro s
    have hrun : DailyLimitRuleCy.runOrders s (o :: t) =
        DailyLimitRuleCy.runOrders (DailyLimitRuleCy.on_order s o) t := rfl
    have hfin : ((o :: t).map OrderData.vt_orderid).toFinset =
        insert o.vt_orderid (t.map OrderData.vt_orderid).toFinset := by
      simp
    rw [hrun, hfin]
    have key := ih (DailyLimitRuleCy.on_order s o)
    rcases daily_on_order_order_fields s o with ⟨hna, hcnt, hall⟩ | ⟨hcnt, hall⟩
    · rw [hcnt, hall] at key
      have hstep := card_sdiff_insert_le o.vt_orderid
        (t.map OrderData.vt_orderid).toFinset s.all_orderids hna
      linarith
    · rw [hcnt, hall] at key
      have hstep := card_sdiff_le_insert o.vt_orderid
        (t.map OrderData.vt_orderid).toFinset s.all_orderids
      linarith

/-- Helper: over any order-event sequence, the global cancel counter grows by
at most the number of distinct not-yet-cancelled order ids in the sequence. -/
theorem daily_runOrders_cancel_bound (l : List OrderData) :
    ∀ s : DailyState, (DailyLimitRuleCy.runOrders s l).total_cancel_count ≤
      s.total_cancel_count +
        (((l.map OrderData.vt_orderid).toFinset \ s.cancel_orderids).card : ℤ) := by
  induction l with
  | nil => intro s; simp [DailyLimitRuleCy.runOrders]
  | cons o t ih =>
    intro s
    have hrun : DailyLimitRuleCy.runOrders s (o :: t) =
        DailyLimitRuleCy.runOrders (DailyLimitRuleCy.on_order s o) t := rfl
    have hfin : ((o :: t).map OrderData.vt_orderid).toFinset =
        insert o.vt_orderid (t.map OrderData.vt_orderid).toFinset := by
      simp
    rw [hrun, hfin]
    have key := ih (DailyLimitRuleCy.on_order s o)
    rcases daily_on_order_cancel_fields s o with ⟨hcnt, hset⟩ | ⟨hna, hcnt, hset⟩
    · rw [hcnt, hset] at key
      have hstep := card_sdiff_le_insert o.vt_orderid
        (t.map OrderData.vt_orderid).toFinset s.cancel_orderids
      linarith
    · rw [hcnt, hset] at key
      have hstep := card_sdiff_insert_le o.vt_orderid
        (t.map OrderData.vt_orderid).toFinset s.cancel_orderids hna
      linarith

/-- C3: duplicate order events are de-duplicated: a second delivery of the
same order's event adds nothing to the order counters; a CANCELLED event for
an id never seen as an order does not touch the cancel counters; and over
any event sequence each distinct order id contributes at most one
order-count increment and at most one cancel-count increment. -/
theorem dailyLimit_on_order_dedup_spec :
    (∀ (s : DailyState) (o : OrderData),
      (DailyLimitRuleCy.on_order (DailyLimitRuleCy.on_order s o) o).total_order_count =
        (DailyLimitRuleCy.on_order s o).total_order_count ∧
      (DailyLimitRuleCy.on_order (DailyLimitRuleCy.on_order s o) o).contract_order_count =
        (DailyLimitRuleCy.on_order s o).contract_order_count) ∧
    (∀ (s : DailyState) (o : OrderData),
      o.status = Status.CANCELLED → o.vt_orderid ∉ s.all_orderids →
        (DailyLimitRuleCy.on_order s o).total_cancel_count = s.total_cancel_count ∧
        (DailyLimitRuleCy.on_order s o).contract_cancel_count = s.contract_cancel_count) ∧
    (∀ (s : DailyState) (l : List OrderData),
      (DailyLimitRuleCy.runOrders s l).total_order_count ≤
        s.total_order_count +
          (((l.map OrderData.vt_orderid).toFinset \ s.all_orderids).card : ℤ) ∧
      (DailyLimitRuleCy.runOrders s l).total_cancel_count ≤
        s.total_cancel_count +
          (((l.map OrderData.vt_orderid).toFinset \ s.cancel_orderids).card : ℤ)) := by
  refine ⟨?_, ?_, ?_⟩
  · intro s o
    exact daily_on_order_seen_order_counts (DailyLimitRuleCy.on_order s o) o
      (daily_on_order_mem s o)
  · intro s o hst hna
    unfold DailyLimitRuleCy.on_order
    rw [if_pos hna]
    exact ⟨rfl, rfl⟩
  · intro s l
    exact ⟨daily_runOrders_order_bound l s, daily_runOrders_cancel_bound l s⟩

/-- Witness for C3: a CANCELLED event for an unseen order id, delivered to
the freshly initialised rule, leaves the cancel counters untouched. -/
theorem dailyLimit_on_order_dedup_witness :
    (⟨"ord-1", "rb2310.SHFE", Status.CANCELLED⟩ : OrderData).status = Status.CANCELLED ∧
    "ord-1" ∉ DailyLimitRuleCy.on_init.all_orderids ∧
    ((DailyLimitRuleCy.on_order DailyLimitRuleCy.on_init
        ⟨"ord-1", "rb2310.SHFE", Status.CANCELLED⟩).total_cancel_count =
      DailyLimitRuleCy.on_init.total_cancel_count ∧
    (DailyLimitRuleCy.on_order DailyLimitRuleCy.on_init
        ⟨"ord-1", "rb2310.SHFE", Status.CANCELLED⟩).contract_cancel_count =
      DailyLimitRuleCy.on_init.contract_cancel_count) :=
  ⟨rfl, by simp [DailyLimitRuleCy.on_init],
    dailyLimit_on_order_dedup_spec.2.1 DailyLimitRuleCy.on_init
      ⟨"ord-1", "rb2310.SHFE", Status.CANCELLED⟩ rfl
      (by simp [DailyLimitRuleCy.on_init])⟩

/-- Helper: the invariant holds right after `on_init`. -/
theorem daily_invariant_on_init : DailyInvariant DailyLimitRuleCy.on_init := by
  refine ⟨?_, ?_, ?_, ?_⟩ <;> simp [DailyLimitRuleCy.on_init, DailyInvariant]

/-- Helper: `on_order` preserves the invariant. -/
theorem daily_invariant_on_order (s : DailyState) (o : OrderData)
    (h : DailyInvariant s) : DailyInvariant (DailyLimitRuleCy.on_order s o) := by
  obtain ⟨h1, h2, h3, h4⟩ := h
  unfold DailyLimitRuleCy.on_order
  by_cases ha : o.vt_orderid ∉ s.all_orderids
  · rw [if_pos ha]
    refine ⟨?_, h2, h3, h4.trans (Finset.subset_insert _ _)⟩
    show s.total_order_count + 1 = ((insert o.vt_orderid s.all_orderids).card : ℤ)
    rw [Finset.card_insert_of_not_mem ha, h1]
    push_cast
    ring
  · rw [if_neg ha]
    by_cases hb : o.status = Status.CANCELLED ∧ o.vt_orderid ∉ s.cancel_orderids
    · rw [if_pos hb]
      refine ⟨h1, ?_, h3, Finset.insert_subset (not_not.mp ha) h4⟩
      show s.total_cancel_count + 1 = ((insert o.vt_orderid s.cancel_orderids).card : ℤ)
      rw [Finset.card_insert_of_not_mem hb.2, h2]
      push_cast
      ring
    · rw [if_neg hb]
      exact ⟨h1, h2, h3, h4⟩

/-- Helper: `on_trade` preserves the invariant. -/
theorem daily_invariant_on_trade (s : DailyState) (t : TradeData)
    (h : DailyInvariant s) : DailyInvariant (DailyLimitRuleCy.on_trade s t) := by
  obtain ⟨h1, h2, h3, h4⟩ := h
  unfold DailyLimitRuleCy.on_trade
  by_cases ha : t.vt_tradeid ∈ s.all_tradeids
  · rw [if_pos ha]
    exact ⟨h1, h2, h3, h4⟩
  · rw [if_neg ha]
    refine ⟨h1, h2, ?_, h4⟩
    show s.total_trade_count + 1 = ((insert t.vt_tradeid s.all_tradeids).card : ℤ)
    rw [Finset.card_insert_of_not_mem ha, h3]
    push_cast
    ring

/-- Helper: `check_allowed` returns the state unchanged. -/
theorem daily_check_allowed_fst (s : DailyState) (req : OrderRequest) :
    (DailyLimitRuleCy.check_allowed s req).1 = s := by
  unfold DailyLimitRuleCy.check_allowed
  split_ifs <;> rfl

/-- Helper: every engine-visible call preserves the invariant. -/
theorem daily_invariant_step (s : DailyState) (c : DailyCall)
    (h : DailyInvariant s) : DailyInvariant (DailyLimitRuleCy.step s c) := by
  cases c with
  | order o => exact daily_invariant_on_order s o h
  | trade t => exact daily_invariant_on_trade s t h
  | timer => exact h
  | check req =>
    have hs : DailyLimitRuleCy.step s (DailyCall.check req) = s :=
      daily_check_allowed_fst s req
    rwa [hs]
  | setting f =>
    obtain ⟨h1, h2, h3, h4⟩ := h
    exact ⟨h1, h2, h3, h4⟩

/-- C10: after initialisation and any sequence of `on_order`, `on_trade`,
`on_timer`, `check_allowed` and `update_setting` calls, each global counter
of `DailyLimitRule` equals the size of its id set, and `cancel_orderids` is
a subset of `all_orderids`. -/
theorem dailyLimit_counts_invariant (l : List DailyCall) :
    DailyInvariant (DailyLimitRuleCy.run l) := by
  have main : ∀ (m : List DailyCall) (s : DailyState), DailyInvariant s →
      DailyInvariant (m.foldl DailyLimitRuleCy.step s) := by
    intro m
    induction m with
    | nil => intro s hs; exact hs
    | cons c t ih =>
      intro s hs
      exact ih (DailyLimitRuleCy.step s c) (daily_invariant_step s c hs)
  exact main l DailyLimitRuleCy.on_init daily_invariant_on_init

/-- Helper: repeated checking never changes the configured limit. -/
theorem dup_run_limit (req : OrderRequest) (n : ℕ) :
    (DuplicateOrderRuleCy.run req n).duplicate_order_limit = 10 := by
  induction n with
  | zero => rfl
  | succ n ih =>
    simpa [DuplicateOrderRuleCy.run, DuplicateOrderRuleCy.check_allowed] using ih

/-- Helper: after `n` identical checks the fingerprint's count is `n`. -/
theorem dup_run_count (req : OrderRequest) (n : ℕ) :
    (DuplicateOrderRuleCy.run req n).duplicate_order_count
      (DuplicateOrderRuleCy.format_req req) = (n : ℤ) := by
  induction n with
  | zero => rfl
  | succ n ih =>
    simp [DuplicateOrderRuleCy.run, DuplicateOrderRuleCy.check_allowed, ih]

/-- C2: with the default limit 10, the `n`-th identical check (1-based
`n = m + 1`) increments the fingerprint's count to `n` as a side effect of
the check itself, allows for `n ≤ 9` and denies from `n = 10` on; in
general a check denies iff the post-increment count reaches the limit. -/
theorem duplicateOrder_check_allowed_spec (req : OrderRequest) (m : ℕ) :
    ((DuplicateOrderRuleCy.check_allowed (DuplicateOrderRuleCy.run req m) req).1).duplicate_order_count
        (DuplicateOrderRuleCy.format_req req) = (m : ℤ) + 1 ∧
    (DuplicateOrderRuleCy.check_allowed (DuplicateOrderRuleCy.run req m) req).2 =
      decide ((m : ℤ) + 1 < 10) ∧
    ∀ (s : DupState) (r : OrderRequest),
      ((DuplicateOrderRuleCy.check_allowed s r).2 = false ↔
        s.duplicate_order_count (DuplicateOrderRuleCy.format_req r) + 1 ≥
          s.duplicate_order_limit) := by
  refine ⟨?_, ?_, ?_⟩
  · have h : (DuplicateOrderRuleCy.check_allowed (DuplicateOrderRuleCy.run req m) req).1 =
        DuplicateOrderRuleCy.run req (m + 1) := rfl
    rw [h, dup_run_count]
    push_cast
    ring
  · have hc := dup_run_count req m
    have hl := dup_run_limit req m
    simp only [DuplicateOrderRuleCy.check_allowed, hc, hl]
    by_cases hlt : (m : ℤ) + 1 < 10
    · simp [hlt, not_le.mpr hlt]
    · have hge : (m : ℤ) + 1 ≥ 10 := not_lt.mp hlt
      simp [hlt, hge]
  · intro s r
    simp only [DuplicateOrderRuleCy.check_allowed]
    by_cases hge : s.duplicate_order_count (DuplicateOrderRuleCy.format_req r) + 1 ≥
        s.duplicate_order_limit
    · simp [hge]
    · simp [hge]

end VnpyRisk

namespace VnpyRisk

/-- C1: `OrderValidityRule.check_allowed` returns `false` exactly when: no
contract resolves; or the tick size is positive and the remainder of price
mod tick is neither within `1e-6` of `0` nor within `1e-6` of the tick; or
`max_volume` is nonzero and the volume exceeds it; or the volume is below
`min_volume`. Otherwise it returns `true`. -/
theorem orderValidity_check_allowed_false_iff
    (get_contract : String → Option ContractData) (req : OrderRequest) :
    OrderValidityRuleCy.check_allowed get_contract req = false ↔
      (get_contract req.vt_symbol = none ∨
        ∃ c, get_contract req.vt_symbol = some c ∧
          ((c.pricetick > 0 ∧
              |pymod req.price c.pricetick| > tol ∧
              |pymod req.price c.pricetick - c.pricetick| > tol) ∨
            (c.max_volume ≠ 0 ∧ req.volume > c.max_volume) ∨
            req.volume < c.min_volume)) := by
  cases h : get_contract req.vt_symbol with
  | none => simp [OrderValidityRuleCy.check_allowed, h]
  | some c =>
    have key : OrderValidityRuleCy.check_allowed get_contract req = false ↔
        ((c.pricetick > 0 ∧
            |pymod req.price c.pricetick| > tol ∧
            |pymod req.price c.pricetick - c.pricetick| > tol) ∨
          (c.max_volume ≠ 0 ∧ req.volume > c.max_volume) ∨
          req.volume < c.min_volume) := by
      simp only [OrderValidityRuleCy.check_allowed, h]
      split_ifs with h1 h2 h3
      · exact iff_of_true rfl (Or.inl h1)
      · exact iff_of_true rfl (Or.inr (Or.inl h2))
      · exact iff_of_true rfl (Or.inr (Or.inr h3))
      · refine iff_of_false (by simp) ?_
        rintro (hbad | hbad | hbad) <;> tauto
    rw [key]
    constructor
    · intro hbad
      exact Or.inr ⟨c, rfl, hbad⟩
    · rintro (hnone | ⟨c', hc', hbad⟩)
      · exact absurd hnone (by simp)
      · have hcc : c = c' := by rwa [Option.some_inj] at hc'
        subst hcc
        exact hbad

end VnpyRisk

namespace VnpyRisk

/-- Helper: `hasKey` decides key membership. -/
theorem hasKey_iff (k : String) (m : List (String × OrderData)) :
    hasKey k m = true ↔ k ∈ dictKeys m := by
  simp [hasKey]

/-- Helper: keys after a dict insert — unchanged when the key is present,
appended otherwise. -/
theorem dictKeys_dictInsert (k : String) (v : OrderData)
    (m : List (String × OrderData)) :
    dictKeys (dictInsert k v m) =
      if k ∈ dictKeys m then dictKeys m else dictKeys m ++ [k] := by
  induction m with
  | nil => simp [dictKeys, dictInsert]
  | cons p t ih =>
    by_cases hp : p.1 = k
    · simp [dictKeys, dictInsert, hp]
    · have hstep : dictInsert k v (p :: t) = p :: dictInsert k v t := by
        simp [dictInsert, hp]
      have hck : dictKeys (p :: dictInsert k v t) = p.1 :: dictKeys (dictInsert k v t) := by
        simp [dictKeys]
      have hmem : (k ∈ dictKeys (p :: t)) ↔ k ∈ dictKeys t := by
        simp [dictKeys, Ne.symm hp]
      by_cases hk : k ∈ dictKeys t
      · rw [hstep, hck, ih, if_pos hk, if_pos (hmem.mpr hk)]
        simp [dictKeys]
      · rw [hstep, hck, ih, if_neg hk, if_neg (fun hc => hk (hmem.mp hc))]
        simp [dictKeys]

/-- Helper: membership in the keys after a dict insert. -/
theorem mem_dictKeys_dictInsert (x k : String) (v : OrderData)
    (m : List (String × OrderData)) :
    x ∈ dictKeys (dictInsert k v m) ↔ x = k ∨ x ∈ dictKeys m := by
  rw [dictKeys_dictInsert]
  by_cases hk : k ∈ dictKeys m
  · rw [if_pos hk]
    constructor
    · exact Or.inr
    · rintro (hx | hx)
      · exact hx ▸ hk
      · exact hx
  · rw [if_neg hk]
    simp [or_comm]

/-- Helper: a dict insert preserves distinctness of keys. -/
theorem nodup_dictKeys_dictInsert (k : String) (v : OrderData)
    (m : List (String × OrderData)) (h : (dictKeys m).Nodup) :
    (dictKeys (dictInsert k v m)).Nodup := by
  rw [dictKeys_dictInsert]
  by_cases hk : k ∈ dictKeys m
  · rwa [if_pos hk]
  · rw [if_neg hk]
    rw [List.nodup_append]
    exact ⟨h, List.nodup_singleton k, by simpa [List.disjoint_singleton] using hk⟩

/-- Helper: erasing a key keeps a sublist of the keys. -/
theorem dictKeys_eraseKey_sublist (k : String) (m : List (String × OrderData)) :
    (dictKeys (eraseKey k m)).Sublist (dictKeys m) := by
  induction m with
  | nil => simp [dictKeys, eraseKey]
  | cons p t ih =>
    by_cases hp : p.1 = k
    · simp only [eraseKey, if_pos hp, dictKeys, List.map_cons]
      exact List.sublist_cons_self p.1 (List.map Prod.fst t)
    · simp only [eraseKey, if_neg hp, dictKeys, List.map_cons]
      exact List.Sublist.cons₂ p.1 ih

/-- Helper: a dict pop preserves distinctness of keys. -/
theorem nodup_dictKeys_eraseKey (k : String) (m : List (String × OrderData))
    (h : (dictKeys m).Nodup) : (dictKeys (eraseKey k m)).Nodup :=
  List.Nodup.sublist (dictKeys_eraseKey_sublist k m) h

/-- Helper: membership in the keys after a dict pop (keys distinct). -/
theorem mem_dictKeys_eraseKey (x k : String) (m : List (String × OrderData))
    (h : (dictKeys m).Nodup) :
    x ∈ dictKeys (eraseKey k m) ↔ x ∈ dictKeys m ∧ x ≠ k := by
  induction m with
  | nil => simp [dictKeys, eraseKey]
  | cons p t ih =>
    have hcons : (dictKeys (p :: t)) = p.1 :: dictKeys t := by simp [dictKeys]
    rw [hcons] at h
    have hpn : p.1 ∉ dictKeys t := (List.nodup_cons.mp h).1
    have hnt : (dictKeys t).Nodup := (List.nodup_cons.mp h).2
    by_cases hp : p.1 = k
    · subst hp
      simp only [eraseKey, if_pos rfl, hcons, List.mem_cons]
      constructor
      · intro hx
        exact ⟨Or.inr hx, fun he => hpn (he ▸ hx)⟩
      · rintro ⟨hx | hx, hne⟩
        · exact absurd hx hne
        · exact hx
    · simp only [eraseKey, if_neg hp]
      have hcons2 : dictKeys (p :: eraseKey k t) = p.1 :: dictKeys (eraseKey k t) := by
        simp [dictKeys]
      rw [hcons2, hcons]
      simp only [List.mem_cons]
      constructor
      · rintro (hx | hx)
        · exact ⟨Or.inl hx, hx ▸ hp⟩
        · obtain ⟨h1, h2⟩ := (ih hnt).mp hx
          exact ⟨Or.inr h1, h2⟩
      · rintro ⟨hx | hx, hne⟩
        · exact Or.inl hx
        · exact Or.inr ((ih hnt).mpr ⟨hx, hne⟩)

/-- C5: provided the active-orders dict has distinct keys, after any
`on_order` event the count equals the number of distinct order ids held in
the mapping, keys stay distinct, the delivered order is present exactly
when its own `is_active` predicate held (other ids unaffected), and the
call emits exactly one update even when nothing changed. -/
theorem activeOrder_on_order_spec (s : ActiveState) (o : OrderData)
    (h : (dictKeys s.active_orders).Nodup) :
    (ActiveOrderRuleCy.on_order s o).active_order_count =
      ((dictKeys (ActiveOrderRuleCy.on_order s o).active_orders).toFinset.card : ℤ) ∧
    (dictKeys (ActiveOrderRuleCy.on_order s o).active_orders).Nodup ∧
    (∀ x : String, x ∈ dictKeys (ActiveOrderRuleCy.on_order s o).active_orders ↔
      (if x = o.vt_orderid then o.is_active = true
       else x ∈ dictKeys s.active_orders)) ∧
    (ActiveOrderRuleCy.on_order s o).events = s.events + 1 := by
  have horders : (ActiveOrderRuleCy.on_order s o).active_orders =
      (if o.is_active then dictInsert o.vt_orderid o s.active_orders
       else if hasKey o.vt_orderid s.active_orders then
         eraseKey o.vt_orderid s.active_orders
       else s.active_orders) := rfl
  have hcount : (ActiveOrderRuleCy.on_order s o).active_order_count =
      (((ActiveOrderRuleCy.on_order s o).active_orders.length : ℤ)) := rfl
  have hnodup : (dictKeys (ActiveOrderRuleCy.on_order s o).active_orders).Nodup := by
    rw [horders]
    by_cases h1 : o.is_active
    · rw [if_pos h1]
      exact nodup_dictKeys_dictInsert _ _ _ h
    · rw [if_neg h1]
      by_cases h2 : hasKey o.vt_orderid s.active_orders
      · rw [if_pos h2]
        exact nodup_dictKeys_eraseKey _ _ h
      · rwa [if_neg h2]
  refine ⟨?_, hnodup, ?_, rfl⟩
  · rw [hcount, List.toFinset_card_of_nodup hnodup]
    simp [dictKeys]
  · intro x
    rw [horders]
    by_cases h1 : o.is_active
    · rw [if_pos h1, mem_dictKeys_dictInsert]
      by_cases hx : x = o.vt_orderid
      · simp [hx, h1]
      · simp [hx]
    · rw [if_neg h1]
      by_cases h2 : hasKey o.vt_orderid s.active_orders
      · rw [if_pos h2, mem_dictKeys_eraseKey x _ _ h]
        by_cases hx : x = o.vt_orderid
        · simp only [if_pos hx, hx]
          constructor
          · rintro ⟨_, hne⟩
            exact absurd rfl hne
          · intro hact
            exact absurd hact h1
        · simp [hx]
      · rw [if_neg h2]
        by_cases hx : x = o.vt_orderid
        · have hno : o.vt_orderid ∉ dictKeys s.active_orders := by
            intro hmem
            exact h2 ((hasKey_iff _ _).mpr hmem)
          simp only [if_pos hx, hx]
          constructor
          · intro hmem
            exact absurd hmem hno
          · intro hact
            exact absurd hact h1
        · simp [hx]

/-- Witness for C5: a first NOTTRADED order delivered to the fresh rule. -/
theorem activeOrder_on_order_witness :
    (dictKeys ActiveOrderRuleCy.on_init.active_orders).Nodup ∧
    (ActiveOrderRuleCy.on_order ActiveOrderRuleCy.on_init
        ⟨"ord-1", "rb2310.SHFE", Status.NOTTRADED⟩).active_order_count =
      ((dictKeys (ActiveOrderRuleCy.on_order ActiveOrderRuleCy.on_init
        ⟨"ord-1", "rb2310.SHFE", Status.NOTTRADED⟩).active_orders).toFinset.card : ℤ) ∧
    (ActiveOrderRuleCy.on_order ActiveOrderRuleCy.on_init
        ⟨"ord-1", "rb2310.SHFE", Status.NOTTRADED⟩).events =
      ActiveOrderRuleCy.on_init.events + 1 := by
  have hn : (dictKeys ActiveOrderRuleCy.on_init.active_orders).Nodup := by
    simp [ActiveOrderRuleCy.on_init, dictKeys]
  exact ⟨hn, (activeOrder_on_order_spec ActiveOrderRuleCy.on_init _ hn).1,
    (activeOrder_on_order_spec ActiveOrderRuleCy.on_init _ hn).2.2.2⟩

/-- C6: when the price is zero (market order) or no contract resolves, the
notional-value check is skipped and `OrderSizeRule.check_allowed` denies
exactly when the volume exceeds `order_volume_limit`. -/
theorem orderSize_market_order_spec (s : OrderSizeState)
    (get_contract : String → Option ContractData) (req : OrderRequest)
    (h : req.price = 0 ∨ get_contract req.vt_symbol = none) :
    (OrderSizeRuleCy.check_allowed s get_contract req = false ↔
      req.volume > (s.order_volume_limit : ℚ)) := by
  unfold OrderSizeRuleCy.check_allowed
  by_cases hv : req.volume > (s.order_volume_limit : ℚ)
  · rw [if_pos hv]
    simp [hv]
  · rw [if_neg hv]
    rcases h with h0 | hnone
    · cases hc : get_contract req.vt_symbol with
      | none => simp [hv]
      | some c => simp [h0, hv]
    · rw [hnone]
      simp [hv]

/-- Witness for C6: a 600-lot market order (price 0) against the default
limits is denied purely by the volume check, with a contract resolving. -/
theorem orderSize_market_order_witness :
    ((⟨"IF2312.CFFEX", OrderType.MARKET, Direction.LONG, Offset.OPEN, 600, 0⟩ :
        OrderRequest).price = 0 ∨
      (fun _ => some (⟨1, 1, 0, 300⟩ : ContractData))
        (⟨"IF2312.CFFEX", OrderType.MARKET, Direction.LONG, Offset.OPEN, 600, 0⟩ :
          OrderRequest).vt_symbol = none) ∧
    (OrderSizeRuleCy.check_allowed OrderSizeRuleCy.on_init
        (fun _ => some (⟨1, 1, 0, 300⟩ : ContractData))
        ⟨"IF2312.CFFEX", OrderType.MARKET, Direction.LONG, Offset.OPEN, 600, 0⟩ = false ↔
      (⟨"IF2312.CFFEX", OrderType.MARKET, Direction.LONG, Offset.OPEN, 600, 0⟩ :
        OrderRequest).volume > (OrderSizeRuleCy.on_init.order_volume_limit : ℚ)) :=
  ⟨Or.inl rfl,
    orderSize_market_order_spec OrderSizeRuleCy.on_init
      (fun _ => some (⟨1, 1, 0, 300⟩ : ContractData))
      ⟨"IF2312.CFFEX", OrderType.MARKET, Direction.LONG, Offset.OPEN, 600, 0⟩
      (Or.inl rfl)⟩

end VnpyRisk

namespace VnpyRisk

/-- Helper: the attribute map after the `update_setting` fold — assigned
from the mapping exactly on declared keys the mapping provides. -/
theorem update_foldl_attrs {α : Type} (setting : String → Option α)
    (keyList : List (String × String)) :
    ∀ (r : RuleTemplate α) (x : String),
      (keyList.foldl (updateStep setting) r).attrs x =
        if x ∈ keyList.map Prod.fst ∧ (setting x).isSome then setting x
        else r.attrs x := by
  induction keyList with
  | nil =>
    intro r x
    simp
  | cons p t ih =>
    intro r x
    rw [List.foldl_cons, ih]
    by_cases ht : x ∈ t.map Prod.fst ∧ (setting x).isSome
    · rw [if_pos ht, if_pos ⟨by simp [ht.1], ht.2⟩]
    · rw [if_neg ht]
      unfold updateStep
      cases hsp : setting p.1 with
      | none =>
        have hcond : ¬(x ∈ (p :: t).map Prod.fst ∧ (setting x).isSome) := by
          rintro ⟨hmem, hsome⟩
          rcases (by simpa using hmem : x = p.1 ∨ x ∈ t.map Prod.fst) with hx | hx
          · rw [hx, hsp] at hsome
            simp at hsome
          · exact ht ⟨hx, hsome⟩
        rw [if_neg hcond]
      | some v =>
        by_cases hx : x = p.1
        · have hset : setting x = some v := by rw [hx, hsp]
          have hcond : x ∈ (p :: t).map Prod.fst ∧ (setting x).isSome :=
            ⟨by simp [hx], by simp [hset]⟩
          rw [if_pos hcond]
          have hset2 : (setAttr r p.1 v).attrs x = some v := by simp [setAttr, hx]
          rw [hset2, hset]
        · have hcond : ¬(x ∈ (p :: t).map Prod.fst ∧ (setting x).isSome) := by
            rintro ⟨hmem, hsome⟩
            rcases (by simpa using hmem : x = p.1 ∨ x ∈ t.map Prod.fst) with hc | hc
            · exact hx hc
            · exact ht ⟨hc, hsome⟩
          rw [if_neg hcond]
          simp [setAttr, hx]

/-- Helper: the `update_setting` fold never touches the metadata fields. -/
theorem update_foldl_frame {α : Type} (setting : String → Option α)
    (keyList : List (String × String)) :
    ∀ r : RuleTemplate α,
      (keyList.foldl (updateStep setting) r).parameters = r.parameters ∧
      (keyList.foldl (updateStep setting) r).vars = r.vars ∧
      (keyList.foldl (updateStep setting) r).name = r.name ∧
      (keyList.foldl (updateStep setting) r).class_name = r.class_name := by
  induction keyList with
  | nil =>
    intro r
    exact ⟨rfl, rfl, rfl, rfl⟩
  | cons p t ih =>
    intro r
    rw [List.foldl_cons]
    have hstep : (updateStep setting r p).parameters = r.parameters ∧
        (updateStep setting r p).vars = r.vars ∧
        (updateStep setting r p).name = r.name ∧
        (updateStep setting r p).class_name = r.class_name := by
      unfold updateStep
      cases setting p.1 with
      | none => exact ⟨rfl, rfl, rfl, rfl⟩
      | some v => exact ⟨rfl, rfl, rfl, rfl⟩
    obtain ⟨i1, i2, i3, i4⟩ := ih (updateStep setting r p)
    exact ⟨i1.trans hstep.1, i2.trans hstep.2.1, i3.trans hstep.2.2.1,
      i4.trans hstep.2.2.2⟩

/-- Helper: attribute map of `update_setting` itself. -/
theorem update_setting_attrs {α : Type} (r : RuleTemplate α)
    (setting : String → Option α) (x : String) :
    (r.update_setting setting).attrs x =
      if x ∈ r.parameters.map Prod.fst ∧ (setting x).isSome then setting x
      else r.attrs x :=
  update_foldl_attrs setting r.parameters r x

/-- Helper: `update_setting` keeps the declared parameter descriptors. -/
theorem update_setting_params {α : Type} (r : RuleTemplate α)
    (setting : String → Option α) :
    (r.update_setting setting).parameters = r.parameters :=
  (update_foldl_frame setting r.parameters r).1

/-- Helper: `update_setting` keeps the declared variable descriptors. -/
theorem update_setting_vars {α : Type} (r : RuleTemplate α)
    (setting : String → Option α) :
    (r.update_setting setting).vars = r.vars :=
  (update_foldl_frame setting r.parameters r).2.1

/-- Helper: looking a declared key up in a snapshot table built by mapping
an attribute reader over the descriptor list. -/
theorem lookup_map_attrs {α : Type} (l : List (String × String))
    (f : String → Option α) (x : String) (hx : x ∈ l.map Prod.fst) :
    List.lookup x (l.map (fun p => (p.1, f p.1))) = some (f x) := by
  induction l with
  | nil => simp at hx
  | cons p t ih =>
    by_cases he : x = p.1
    · simp [List.lookup_cons, he]
    · have hmem : x ∈ t.map Prod.fst := by
        rcases (by simpa using hx : x = p.1 ∨ x ∈ t.map Prod.fst) with hc | hc
        · exact absurd hc he
        · exact hc
      simp [List.lookup_cons, beq_false_of_ne he, ih hmem]

/-- C8: round-trip — for a rule declaring parameter `x`, applying
`update_setting` with a mapping that binds `x` to `v` and then snapshotting
with `get_data` yields a parameters table whose entry for `x` is `v`. -/
theorem ruleTemplate_snapshot_roundtrip {α : Type} (r : RuleTemplate α)
    (setting : String → Option α) (x : String) (v : α)
    (hx : x ∈ r.parameters.map Prod.fst) (hv : setting x = some v) :
    List.lookup x ((r.update_setting setting).get_data).parameters =
      some (some v) := by
  have hattrs : (r.update_setting setting).attrs x = some v := by
    rw [update_setting_attrs, if_pos ⟨hx, by simp [hv]⟩, hv]
  have hdata : ((r.update_setting setting).get_data).parameters =
      r.parameters.map (fun p => (p.1, (r.update_setting setting).attrs p.1)) := by
    unfold RuleTemplate.get_data
    rw [update_setting_params]
  rw [hdata]
  have hlk := lookup_map_attrs r.parameters
    ((r.update_setting setting).attrs) x hx
  rw [hattrs] at hlk
  exact hlk

/-- Witness for C8: a one-parameter rule, setting `x := 5`, snapshotting. -/
theorem ruleTemplate_snapshot_roundtrip_witness :
    "x" ∈ ([("x", "the x")] : List (String × String)).map Prod.fst ∧
    (fun k => if k = "x" then some (5 : ℤ) else none) "x" = some 5 ∧
    List.lookup "x"
      (((⟨"r", "R", [("x", "the x")], [], fun _ => none⟩ :
          RuleTemplate ℤ).update_setting
        (fun k => if k = "x" then some (5 : ℤ) else none)).get_data).parameters =
      some (some 5) :=
  ⟨by simp, by simp,
    ruleTemplate_snapshot_roundtrip
      (⟨"r", "R", [("x", "the x")], [], fun _ => none⟩ : RuleTemplate ℤ)
      (fun k => if k = "x" then some (5 : ℤ) else none) "x" 5 (by simp) (by simp)⟩

/-- C9: `update_setting` assigns exactly the attributes whose key is both a
declared parameter and present in the incoming mapping; unknown keys are
ignored silently, so a mapping providing nothing for any declared parameter
leaves every attribute (and the declared metadata) unchanged. -/
theorem ruleTemplate_update_setting_frame {α : Type} (r : RuleTemplate α)
    (setting : String → Option α) :
    (∀ x : String, x ∈ r.parameters.map Prod.fst → (setting x).isSome →
      (r.update_setting setting).attrs x = setting x) ∧
    (∀ x : String, x ∉ r.parameters.map Prod.fst ∨ setting x = none →
      (r.update_setting setting).attrs x = r.attrs x) ∧
    ((∀ x ∈ r.parameters.map Prod.fst, setting x = none) →
      ∀ x : String, (r.update_setting setting).attrs x = r.attrs x) ∧
    (r.update_setting setting).parameters = r.parameters ∧
    (r.update_setting setting).vars = r.vars := by
  refine ⟨?_, ?_, ?_, update_setting_params r setting, update_setting_vars r setting⟩
  · intro x hmem hsome
    rw [update_setting_attrs, if_pos ⟨hmem, hsome⟩]
  · intro x hcase
    rw [update_setting_attrs, if_neg ?_]
    rintro ⟨hm, hs⟩
    rcases hcase with hc | hc
    · exact hc hm
    · rw [hc] at hs
      simp at hs
  · intro hall x
    rw [update_setting_attrs, if_neg ?_]
    rintro ⟨hm, hs⟩
    rw [hall x hm] at hs
    simp at hs

/-- Witness for C9: a setting naming only an undeclared key leaves the
declared attribute `x` unchanged. -/
theorem ruleTemplate_update_setting_frame_witness :
    (∀ x ∈ ([("x", "the x")] : List (String × String)).map Prod.fst,
      (fun k => if k = "not_a_param" then some (1 : ℤ) else none) x = none) ∧
    ((⟨"r", "R", [("x", "the x")], [("y", "the y")], fun _ => none⟩ :
        RuleTemplate ℤ).update_setting
      (fun k => if k = "not_a_param" then some (1 : ℤ) else none)).attrs "x" =
      (⟨"r", "R", [("x", "the x")], [("y", "the y")], fun _ => none⟩ :
        RuleTemplate ℤ).attrs "x" := by
  have hall : ∀ x ∈ ([("x", "the x")] : List (String × String)).map Prod.fst,
      (fun k => if k = "not_a_param" then some (1 : ℤ) else none) x = none := by
    intro x hx
    have hxe : x = "x" := by simpa using hx
    subst hxe
    simp
  exact ⟨hall,
    (ruleTemplate_update_setting_frame
      (⟨"r", "R", [("x", "the x")], [("y", "the y")], fun _ => none⟩ : RuleTemplate ℤ)
      (fun k => if k = "not_a_param" then some (1 : ℤ) else none)).2.2.1 hall "x"⟩

end VnpyRisk

namespace VnpyRisk

/-- Helper: decimal digit characters differ from the fingerprint's
separator and sign characters. -/
theorem digitChar_ne (d : ℕ) (hd : d < 10) :
    digitChar d ≠ '|' ∧ digitChar d ≠ '@' ∧ digitChar d ≠ '/' ∧ digitChar d ≠ '-' := by
  interval_cases d <;> exact ⟨by decide, by decide, by decide, by decide⟩

/-- Helper: `digitChar` is injective on decimal digits. -/
theorem digitChar_inj_lt (a b : ℕ) (ha : a < 10) (hb : b < 10)
    (h : digitChar a = digitChar b) : a = b := by
  interval_cases a <;> interval_cases b <;> revert h <;> decide

/-- Helper: mapping `digitChar` over digit lists is injective. -/
theorem map_digitChar_inj (l1 : List ℕ) :
    ∀ l2 : List ℕ, (∀ d ∈ l1, d < 10) → (∀ d ∈ l2, d < 10) →
      l1.map digitChar = l2.map digitChar → l1 = l2 := by
  induction l1 with
  | nil =>
    intro l2 _ _ h
    cases l2 with
    | nil => rfl
    | cons b t => simp at h
  | cons a t ih =>
    intro l2 h1 h2 h
    cases l2 with
    | nil => simp at h
    | cons b t2 =>
      simp only [List.map_cons, List.cons.injEq] at h
      have hab : a = b :=
        digitChar_inj_lt a b (h1 a (by simp)) (h2 b (by simp)) h.1
      have ht : t = t2 := ih t2 (fun d hd => h1 d (by simp [hd]))
        (fun d hd => h2 d (by simp [hd])) h.2
      rw [hab, ht]

/-- Helper: every character of `natChars` is a decimal digit character. -/
theorem natChars_mem (n : ℕ) (c : Char) (hc : c ∈ natChars n) :
    ∃ d : ℕ, d < 10 ∧ c = digitChar d := by
  unfold natChars at hc
  by_cases h0 : n = 0
  · rw [if_pos h0] at hc
    simp only [List.mem_singleton] at hc
    exact ⟨0, by norm_num, by rw [hc]; decide⟩
  · rw [if_neg h0] at hc
    rcases List.mem_map.mp hc with ⟨d, hd, rfl⟩
    exact ⟨d, Nat.digits_lt_base (by norm_num) (List.mem_reverse.mp hd), rfl⟩

/-- Helper: `natChars` is injective. -/
theorem natChars_inj (m n : ℕ) (h : natChars m = natChars n) : m = n := by
  have key : ∀ k : ℕ, k ≠ 0 → natChars k ≠ ['0'] := by
    intro k hk hcontra
    unfold natChars at hcontra
    rw [if_neg hk] at hcontra
    have hlen : ((Nat.digits 10 k).reverse.map digitChar).length = 1 := by
      rw [hcontra]
      rfl
    have hlen2 : (Nat.digits 10 k).reverse.length = 1 := by simpa using hlen
    obtain ⟨d, hd⟩ := List.length_eq_one.mp hlen2
    rw [hd] at hcontra
    simp only [List.map_cons, List.map_nil] at hcontra
    injection hcontra with hchar _
    have hdm : d ∈ Nat.digits 10 k :=
      List.mem_reverse.mp (by rw [hd]; exact List.mem_singleton_self d)
    have hd10 : d < 10 := Nat.digits_lt_base (by norm_num) hdm
    have hd0 : d = 0 :=
      digitChar_inj_lt d 0 hd10 (by norm_num) (by rw [hchar]; decide)
    have hdig : Nat.digits 10 k = [0] := by
      have hrr := congrArg List.reverse hd
      simpa [hd0] using hrr
    have hof := Nat.ofDigits_digits 10 k
    rw [hdig] at hof
    simp [Nat.ofDigits] at hof
    exact hk hof.symm
  by_cases hm : m = 0 <;> by_cases hn : n = 0
  · rw [hm, hn]
  · exact absurd (by rw [← h, hm]; rfl) (key n hn)
  · exact absurd (by rw [h, hn]; rfl) (key m hm)
  · unfold natChars at h
    rw [if_neg hm, if_neg hn] at h
    have hrev : (Nat.digits 10 m).reverse = (Nat.digits 10 n).reverse :=
      map_digitChar_inj _ _
        (fun d hd => Nat.digits_lt_base (by norm_num) (List.mem_reverse.mp hd))
        (fun d hd => Nat.digits_lt_base (by norm_num) (List.mem_reverse.mp hd)) h
    have hdig : Nat.digits 10 m = Nat.digits 10 n := List.reverse_injective hrev
    exact Nat.digits_inj_iff.mp hdig

/-- Helper: every character of `intChars` is a sign or a digit. -/
theorem intChars_mem (i : ℤ) (c : Char) (hc : c ∈ intChars i) :
    c = '-' ∨ ∃ d : ℕ, d < 10 ∧ c = digitChar d := by
  unfold intChars at hc
  by_cases hi : i < 0
  · rw [if_pos hi] at hc
    rcases List.mem_cons.mp hc with rfl | hm
    · exact Or.inl rfl
    · exact Or.inr (natChars_mem _ _ hm)
  · rw [if_neg hi] at hc
    exact Or.inr (natChars_mem _ _ hc)

/-- Helper: the minus sign never appears among digit characters. -/
theorem natChars_no_minus (n : ℕ) : '-' ∉ natChars n := by
  intro hm
  rcases natChars_mem _ _ hm with ⟨d, hd, hc⟩
  exact (digitChar_ne d hd).2.2.2 hc.symm

/-- Helper: `intChars` is injective. -/
theorem intChars_inj (i j : ℤ) (h : intChars i = intChars j) : i = j := by
  have habs : i.natAbs = j.natAbs ∧ (i < 0 ↔ j < 0) := by
    unfold intChars at h
    by_cases hi : i < 0 <;> by_cases hj : j < 0
    · rw [if_pos hi, if_pos hj] at h
      injection h with _ h2
      exact ⟨natChars_inj _ _ h2, iff_of_true hi hj⟩
    · rw [if_pos hi, if_neg hj] at h
      have hm : '-' ∈ natChars j.natAbs := by
        rw [← h]
        exact List.mem_cons_self _ _
      exact absurd hm (natChars_no_minus _)
    · rw [if_neg hi, if_pos hj] at h
      have hm : '-' ∈ natChars i.natAbs := by
        rw [h]
        exact List.mem_cons_self _ _
      exact absurd hm (natChars_no_minus _)
    · rw [if_neg hi, if_neg hj] at h
      exact ⟨natChars_inj _ _ h, iff_of_false hi hj⟩
  obtain ⟨h1, h2⟩ := habs
  by_cases hi : i < 0
  · have hj : j < 0 := h2.mp hi
    omega
  · have hj : ¬j < 0 := fun hja => hi (h2.mpr hja)
    omega

/-- Helper: digit characters are none of the fingerprint separators. -/
theorem natChars_no_sep (n : ℕ) (c : Char) (hc : c ∈ natChars n) :
    c ≠ '|' ∧ c ≠ '@' ∧ c ≠ '/' := by
  rcases natChars_mem n c hc with ⟨d, hd, rfl⟩
  obtain ⟨a, b, c', _⟩ := digitChar_ne d hd
  exact ⟨a, b, c'⟩

/-- Helper: integer characters are none of the fingerprint separators. -/
theorem intChars_no_sep (i : ℤ) (c : Char) (hc : c ∈ intChars i) :
    c ≠ '|' ∧ c ≠ '@' ∧ c ≠ '/' := by
  rcases intChars_mem i c hc with rfl | ⟨d, hd, rfl⟩
  · exact ⟨by decide, by decide, by decide⟩
  · obtain ⟨a, b, c', _⟩ := digitChar_ne d hd
    exact ⟨a, b, c'⟩

/-- Helper: the characters of a serialised rational value. -/
theorem ratStr_data (q : ℚ) :
    (ratStr q).data = intChars q.num ++ '/' :: natChars q.den := rfl

/-- Helper: the pipe separator never occurs in a serialised number. -/
theorem ratStr_no_pipe (q : ℚ) : '|' ∉ (ratStr q).data := by
  rw [ratStr_data]
  intro hm
  rcases List.mem_append.mp hm with hm | hm
  · exact (intChars_no_sep _ _ hm).1 rfl
  · rcases List.mem_cons.mp hm with he | hm2
    · exact absurd he (by decide)
    · exact (natChars_no_sep _ _ hm2).1 rfl

/-- Helper: the at-sign never occurs in a serialised number. -/
theorem ratStr_no_at (q : ℚ) : '@' ∉ (ratStr q).data := by
  rw [ratStr_data]
  intro hm
  rcases List.mem_append.mp hm with hm | hm
  · exact (intChars_no_sep _ _ hm).2.1 rfl
  · rcases List.mem_cons.mp hm with he | hm2
    · exact absurd he (by decide)
    · exact (natChars_no_sep _ _ hm2).2.1 rfl

/-- Helper: splitting two concatenations at a separator that occurs in
neither suffix. -/
theorem splitSepRight (c : Char) : ∀ (r1 r2 l1 l2 : List Char),
    c ∉ l1 → c ∉ l2 → r1 ++ c :: l1 = r2 ++ c :: l2 → r1 = r2 ∧ l1 = l2 := by
  intro r1
  induction r1 with
  | nil =>
    intro r2 l1 l2 h1 h2 h
    cases r2 with
    | nil => simpa using h
    | cons b t =>
      exfalso
      simp only [List.nil_append, List.cons_append, List.cons.injEq] at h
      apply h1
      rw [h.2]
      exact List.mem_append_right t (List.mem_cons_self c l2)
  | cons a t ih =>
    intro r2 l1 l2 h1 h2 h
    cases r2 with
    | nil =>
      exfalso
      simp only [List.nil_append, List.cons_append, List.cons.injEq] at h
      apply h2
      rw [← h.2]
      exact List.mem_append_right t (List.mem_cons_self c l1)
    | cons b t2 =>
      simp only [List.cons_append, List.cons.injEq] at h
      obtain ⟨ht, hl⟩ := ih t2 l1 l2 h1 h2 h.2
      exact ⟨by rw [h.1, ht], hl⟩

/-- Helper: the serialised number determines the rational value. -/
theorem ratStr_inj (q1 q2 : ℚ) (h : ratStr q1 = ratStr q2) : q1 = q2 := by
  have hd : (ratStr q1).data = (ratStr q2).data := by rw [h]
  rw [ratStr_data, ratStr_data] at hd
  obtain ⟨h1, h2⟩ := splitSepRight '/' _ _ _ _
    (fun hm => (natChars_no_sep _ _ hm).2.2 rfl)
    (fun hm => (natChars_no_sep _ _ hm).2.2 rfl) hd
  exact Rat.ext (intChars_inj _ _ h1) (natChars_inj _ _ h2)

/-- Helper: order-type values contain no pipe. -/
theorem orderTypeValue_no_pipe (t : OrderType) : '|' ∉ t.value.data := by
  cases t <;> decide

/-- Helper: direction values contain no pipe. -/
theorem directionValue_no_pipe (d : Direction) : '|' ∉ d.value.data := by
  cases d <;> decide

/-- Helper: offset values contain no pipe. -/
theorem offsetValue_no_pipe (o : Offset) : '|' ∉ o.value.data := by
  cases o <;> decide

/-- Helper: the order-type serialisation is injective. -/
theorem orderTypeValue_inj (a b : OrderType) (h : a.value = b.value) : a = b := by
  cases a <;> cases b <;> first | rfl | (exfalso; revert h; decide)

/-- Helper: the direction serialisation is injective. -/
theorem directionValue_inj (a b : Direction) (h : a.value = b.value) : a = b := by
  cases a <;> cases b <;> first | rfl | (exfalso; revert h; decide)

/-- Helper: the offset serialisation is injective. -/
theorem offsetValue_inj (a b : Offset) (h : a.value = b.value) : a = b := by
  cases a <;> cases b <;> first | rfl | (exfalso; revert h; decide)

/-- Helper: the characters of a fingerprint, field by field. -/
theorem format_req_data (r : OrderRequest) :
    (DuplicateOrderRuleCy.format_req r).data =
      r.vt_symbol.data ++ '|' :: (r.type.value.data ++ '|' :: (r.direction.value.data ++
        '|' :: (r.offset.value.data ++ '|' :: ((ratStr r.volume).data ++
          '@' :: (ratStr r.price).data)))) := by
  simp [DuplicateOrderRuleCy.format_req, String.data_append,
    show ("|" : String).data = ['|'] from rfl,
    show ("@" : String).data = ['@'] from rfl]

/-- C7: two order requests produce the same duplicate-order fingerprint iff
all six serialised fields (symbol, order type, direction, offset, volume,
price) agree exactly — numeric fields by serialised value, not by
floating-point tolerance. -/
theorem duplicateOrder_format_req_inj (r1 r2 : OrderRequest) :
    DuplicateOrderRuleCy.format_req r1 = DuplicateOrderRuleCy.format_req r2 ↔
      (r1.vt_symbol = r2.vt_symbol ∧ r1.type = r2.type ∧
        r1.direction = r2.direction ∧ r1.offset = r2.offset ∧
        r1.volume = r2.volume ∧ r1.price = r2.price) := by
  constructor
  · intro h
    have hd := congrArg String.data h
    rw [format_req_data, format_req_data] at hd
    have htail_free : ∀ q p : ℚ, '|' ∉ ((ratStr q).data ++ '@' :: (ratStr p).data) := by
      intro q p hm
      rcases List.mem_append.mp hm with hm | hm
      · exact ratStr_no_pipe q hm
      · rcases List.mem_cons.mp hm with he | hm2
        · exact absurd he (by decide)
        · exact ratStr_no_pipe p hm2
    have hd1 : (r1.vt_symbol.data ++ '|' :: (r1.type.value.data ++ '|' ::
        (r1.direction.value.data ++ '|' :: r1.offset.value.data))) ++ '|' ::
          ((ratStr r1.volume).data ++ '@' :: (ratStr r1.price).data) =
        (r2.vt_symbol.data ++ '|' :: (r2.type.value.data ++ '|' ::
        (r2.direction.value.data ++ '|' :: r2.offset.value.data))) ++ '|' ::
          ((ratStr r2.volume).data ++ '@' :: (ratStr r2.price).data) := by
      simpa [List.append_assoc] using hd
    obtain ⟨hP, hT⟩ := splitSepRight '|' _ _ _ _
      (htail_free r1.volume r1.price) (htail_free r2.volume r2.price) hd1
    obtain ⟨hv, hp⟩ := splitSepRight '@' _ _ _ _
      (ratStr_no_at r1.price) (ratStr_no_at r2.price) hT
    have hP1 : (r1.vt_symbol.data ++ '|' :: (r1.type.value.data ++ '|' ::
        r1.direction.value.data)) ++ '|' :: r1.offset.value.data =
        (r2.vt_symbol.data ++ '|' :: (r2.type.value.data ++ '|' ::
        r2.direction.value.data)) ++ '|' :: r2.offset.value.data := by
      simpa [List.append_assoc] using hP
    obtain ⟨hQ, ho⟩ := splitSepRight '|' _ _ _ _
      (offsetValue_no_pipe r1.offset) (offsetValue_no_pipe r2.offset) hP1
    have hQ1 : (r1.vt_symbol.data ++ '|' :: r1.type.value.data) ++ '|' ::
        r1.direction.value.data =
        (r2.vt_symbol.data ++ '|' :: r2.type.value.data) ++ '|' ::
        r2.direction.value.data := by
      simpa [List.append_assoc] using hQ
    obtain ⟨hR, hdir⟩ := splitSepRight '|' _ _ _ _
      (directionValue_no_pipe r1.direction) (directionValue_no_pipe r2.direction) hQ1
    obtain ⟨hs, hty⟩ := splitSepRight '|' _ _ _ _
      (orderTypeValue_no_pipe r1.type) (orderTypeValue_no_pipe r2.type) hR
    exact ⟨String.ext hs, orderTypeValue_inj _ _ (String.ext hty),
      directionValue_inj _ _ (String.ext hdir),
      offsetValue_inj _ _ (String.ext ho),
      ratStr_inj _ _ (String.ext hv), ratStr_inj _ _ (String.ext hp)⟩
  · rintro ⟨h1, h2, h3, h4, h5, h6⟩
    unfold DuplicateOrderRuleCy.format_req
    rw [h1, h2, h3, h4, h5, h6]

end VnpyRisk
